import Mathlib

/-!
Shallow embedding of the sandstorm sandbox-orchestration core
(`src/sandstorm/sandbox.py`, `src/sandstorm/models.py`,
`src/sandstorm/slack.py`) and proofs of the specification claims.

Python `dict[str, V]` values are modelled as association lists
`List (String × V)` with Python assignment semantics (`pyInsert`
replaces the value in place, keeping key order, or appends a new key at
the end) and Python lookup (`pyGet`).
-/

namespace Sandstorm

/-- Python dict lookup `m[key]` / `m.get(key)`: first (and, for lists
built by `pyInsert`, only) binding of the key. -/
def pyGet {α : Type} : List (String × α) → String → Option α
  | [], _ => none
  | (k, v) :: rest, key => if k = key then some v else pyGet rest key

/-- Python dict assignment `m[key] = v`: replace the existing binding in
place, or append a fresh binding at the end. -/
def pyInsert {α : Type} : List (String × α) → String → α → List (String × α)
  | [], key, v => [(key, v)]
  | (k, w) :: rest, key, v =>
      if k = key then (k, v) :: rest else (k, w) :: pyInsert rest key v

/-- Python `del m[key]` (on a key-unique dict this removes the single
binding; on a general association list it removes every binding). -/
def pyErase {α : Type} (m : List (String × α)) (key : String) : List (String × α) :=
  m.filter (fun p => p.1 ≠ key)

/-- Keys of a dict, in insertion order. -/
def pyKeys {α : Type} (m : List (String × α)) : List String :=
  m.map Prod.fst

/-- JSON values as decoded by `json.loads` (Python `str`, `int`, `bool`,
`dict`, `list`, `float`, `None`).  Floats keep only their textual form:
no claim computes with them, but `isinstance` checks must see them as
neither `int` nor `str`. -/
inductive JValue : Type where
  | str (s : String)
  | int (n : Int)
  | bool (b : Bool)
  | float (txt : String)
  | dict (fields : List (String × JValue))
  | arr (elems : List JValue)
  | null

/-- The Python types that appear in the `known_fields` table of
`_validate_sandstorm_config`. -/
inductive JType : Type where
  | tStr
  | tInt
  | tBool
  | tDict
  | tList
deriving DecidableEq, Repr

/-- Python `isinstance(value, t)` for a single table type.  Note
`isinstance(True, int)` is `True` in Python, hence `.tInt` accepts
booleans here; the validator's separate bool check compensates. -/
def typeMatches : JType → JValue → Bool
  | .tStr, .str _ => true
  | .tInt, .int _ => true
  | .tInt, .bool _ => true
  | .tBool, .bool _ => true
  | .tDict, .dict _ => true
  | .tList, .arr _ => true
  | _, _ => false

/-- Python `isinstance(value, bool)`. -/
def isBoolJ : JValue → Bool
  | .bool _ => true
  | _ => false

/-- The `known_fields` table of `_validate_sandstorm_config`:
field name → allowed types tuple. -/
def known_fields : String → Option (List JType)
  | "system_prompt" => some [.tStr]
  | "model" => some [.tStr]
  | "max_turns" => some [.tInt]
  | "output_format" => some [.tDict]
  | "agents" => some [.tDict, .tList]
  | "mcp_servers" => some [.tDict]
  | "skills_dir" => some [.tStr]
  | "allowed_tools" => some [.tList]
  | "webhook_url" => some [.tStr]
  | "template_skills" => some [.tBool]
  | _ => none

/-- One iteration of the `for key, value in raw.items()` loop of
`_validate_sandstorm_config`: drop the pair when the key is unknown,
the value is a boolean masquerading as an int, or the value has a type
outside the allowed tuple; otherwise `validated[key] = value`. -/
def validStep (acc : List (String × JValue)) (kv : String × JValue) :
    List (String × JValue) :=
  match known_fields kv.1 with
  | some allowed_types =>
      -- Reject booleans masquerading as int (isinstance(True, int) is True)
      if isBoolJ kv.2 && !allowed_types.contains .tBool then acc
      else if !allowed_types.any (fun t => typeMatches t kv.2) then acc
      else pyInsert acc kv.1 kv.2
  | none => acc  -- unknown field: ignored

/-- The declared-type check a kept pair has passed: known key, value of
one of the allowed types, never a boolean unless `bool` is allowed. -/
def fieldTypeOk (k : String) (v : JValue) : Bool :=
  match known_fields k with
  | none => false
  | some allowed_types =>
      (!isBoolJ v || allowed_types.contains .tBool)
        && allowed_types.any (fun t => typeMatches t v)

/-- Function `_validate_sandstorm_config(raw)` from `sandbox.py`: per-key loop
dropping unknown keys, bool-masquerading-as-int values and mistyped
values; then the `skills_dir` existence post-check; then the
`allowed_tools` all-strings post-check.  The filesystem is abstracted
as the predicate `isDir` (does `Path.cwd() / s` name a directory?).
The function is total: validation never raises. -/
def validate_sandstorm_config (isDir : String → Bool)
    (raw : List (String × JValue)) : List (String × JValue) :=
  let validated : List (String × JValue) := raw.foldl validStep []
  let validated : List (String × JValue) :=
    match pyGet validated "skills_dir" with
    | some (JValue.str s) =>
        if isDir s then validated else pyErase validated "skills_dir"
    | some _ => validated  -- unreachable: typing kept only strings
    | none => validated
  match pyGet validated "allowed_tools" with
  | some (JValue.arr elems) =>
      if !elems.all (fun e => match e with | JValue.str _ => true | _ => false) then
        pyErase validated "allowed_tools"
      else validated
  | some _ => validated  -- unreachable: typing kept only lists
  | none => validated

/-- A skill bundle: relative file path → file content
(`_load_skills_dir` produces `{name: {relative_path: content}}`). -/
abbrev FileMap : Type := List (String × String)

/-- Maps `disk_skills` / `merged_skills`: skill name → skill files. -/
abbrev SkillMap : Type := List (String × FileMap)

/-- An agent definition: an opaque dict passed through to the SDK. -/
abbrev AgentDef : Type := List (String × JValue)

/-- The `agents` field of a validated `sandstorm.json`: either the
addressable dict form or the unaddressable list form. -/
inductive AgentsCfg : Type where
  | map (m : List (String × AgentDef))
  | list (l : List AgentDef)

/-- A validated `sandstorm.json` as consumed by `_build_agent_config`
via `sandstorm_config.get(...)`: every recognized field, absent (`none`)
when dropped or missing.  Types follow the `known_fields` table, which
`_validate_sandstorm_config` has already enforced. -/
structure SandstormConfig : Type where
  system_prompt : Option String := none
  model : Option String := none
  max_turns : Option Int := none
  output_format : Option (List (String × JValue)) := none
  agents : Option AgentsCfg := none
  mcp_servers : Option (List (String × JValue)) := none
  skills_dir : Option String := none
  allowed_tools : Option (List String) := none
  webhook_url : Option String := none
  template_skills : Option Bool := none

/-- The fields of `QueryRequest` (`models.py`) used by
`_build_agent_config` and the file-path validator. -/
structure QueryRequest : Type where
  prompt : String
  model : Option String := none
  max_turns : Option Int := none
  output_format : Option (List (String × JValue)) := none
  timeout : Int := 300
  files : Option (List (String × String)) := none
  allowed_mcp_servers : Option (List String) := none
  allowed_skills : Option (List String) := none
  allowed_tools : Option (List String) := none
  allowed_agents : Option (List String) := none
  extra_agents : Option (List (String × AgentDef)) := none
  extra_skills : Option (List (String × String)) := none

/-- The `agent_config` dict built by `_build_agent_config` and written
to `/opt/agent-runner/agent_config.json`. -/
structure AgentConfig : Type where
  prompt : String
  cwd : String
  model : Option String
  max_turns : Option Int
  system_prompt : Option String
  output_format : Option (List (String × JValue))
  agents : Option AgentsCfg
  mcp_servers : Option (List (String × JValue))
  has_skills : Bool
  allowed_tools : Option (List String)

/-- Python truthiness of an optional dict (`None` and `{}` are falsy). -/
def truthyDict {α : Type} : Option (List (String × α)) → Bool
  | none => false
  | some l => !l.isEmpty

/-- Python truthiness of an optional string (`None` and `""` are falsy). -/
def truthyStr : Option String → Bool
  | none => false
  | some s => !s.isEmpty

/-- Python truthiness of an optional int (`None` and `0` are falsy). -/
def truthyInt : Option Int → Bool
  | none => false
  | some n => n != 0

/-- Lines 377–387 of `sandbox.py`: `merged_skills = dict(disk_skills)`,
then the `extra_skills` overlay loop wrapping each inline value as a
single `SKILL.md` (the `if request.extra_skills:` guard is a no-op for
`None`/`{}` since the loop body then never runs), then the
`allowed_skills` whitelist filter. -/
def mergedSkillsOf (request : QueryRequest) (disk_skills : SkillMap) : SkillMap :=
  let merged_skills := disk_skills
  let merged_skills := (request.extra_skills.getD []).foldl
    (fun m nc => pyInsert m nc.1 [("SKILL.md", nc.2)]) merged_skills
  match request.allowed_skills with
  | none => merged_skills
  | some allowed => merged_skills.filter (fun p => allowed.contains p.1)

/-- Function `_build_agent_config(request, sandstorm_config, disk_skills)` from
`sandbox.py` (lines 367–448).  The Python `raise ValueError(...)` for
list-form agents becomes the `Except.error` branch; every other path
returns `(agent_config, merged_skills)`.  `sandstorm_config.get(key)`
becomes a field access on `SandstormConfig`; Python `a or b` fallbacks
use the matching truthiness helpers. -/
def build_agent_config (request : QueryRequest) (cfg : SandstormConfig)
    (disk_skills : SkillMap) : Except String (AgentConfig × SkillMap) :=
  -- Merge extra skills first (wrap inline content as SKILL.md), then apply whitelist
  let merged_skills := mergedSkillsOf request disk_skills
  let has_skills : Bool := !merged_skills.isEmpty || cfg.template_skills.getD false
  -- Apply MCP servers whitelist
  let mcp_servers := cfg.mcp_servers
  let mcp_servers : Option (List (String × JValue)) :=
    match mcp_servers, request.allowed_mcp_servers with
    | some m, some allowed => some (m.filter (fun p => allowed.contains p.1))
    | m, _ => m
  -- Merge extra agents first, then apply whitelist to combined result
  let agents_config := cfg.agents
  if (match agents_config with | some (.list _) => true | _ => false)
      && (truthyDict request.extra_agents || request.allowed_agents.isSome) then
    .error ("extra_agents and allowed_agents require agents to be a dict"
      ++ " in sandstorm.json, got list")
  else
    let agents_config : Option AgentsCfg :=
      if truthyDict request.extra_agents then
        let base : List (String × AgentDef) :=
          match agents_config with
          | some (.map m) => m
          | some (.list _) => []  -- unreachable: list form with truthy extras errored above
          | none => []
        some (.map ((request.extra_agents.getD []).foldl
          (fun m nv => pyInsert m nv.1 nv.2) base))
      else agents_config
    let agents_config : Option AgentsCfg :=
      match agents_config, request.allowed_agents with
      | some (.map m), some allowed =>
          some (.map (m.filter (fun p => allowed.contains p.1)))
      | a, _ => a
    -- Request-level allowed_tools overrides sandstorm.json
    let allowed_tools_from_request := request.allowed_tools.isSome
    let allowed_tools :=
      if allowed_tools_from_request then request.allowed_tools else cfg.allowed_tools
    -- Auto-add "Skill" only for config-sourced allowed_tools (not explicit request override)
    let allowed_tools : Option (List String) :=
      match allowed_tools with
      | some tools =>
          if has_skills && !allowed_tools_from_request && !tools.contains "Skill" then
            some (tools ++ ["Skill"])
          else some tools
      | none => none
    .ok
      ({ prompt := request.prompt
         cwd := "/home/user"
         model := if truthyStr request.model then request.model else cfg.model
         max_turns := if truthyInt request.max_turns then request.max_turns else cfg.max_turns
         system_prompt := cfg.system_prompt
         output_format :=
           -- `(request.output_format if ... is not None else base) or None`:
           -- an empty dict is falsy, so `or None` maps it to None
           match (match request.output_format with
                  | some d => some d
                  | none => cfg.output_format) with
           | some d => if d.isEmpty then none else some d
           | none => none
         agents := agents_config
         mcp_servers := mcp_servers
         has_skills := has_skills
         allowed_tools := allowed_tools },
       merged_skills)

/-- Provisioning steps observable from `run_agent_in_sandbox`. -/
inductive ProvisionEvent : Type where
  | sandboxReconnected (id : String)
  | sandboxCreated
deriving DecidableEq, Repr

/-- Boolean `Except.isOk` for our result values. -/
def exOk {ε α : Type} : Except ε α → Bool
  | .ok _ => true
  | .error _ => false

/-- The setup phase of `run_agent_in_sandbox` (lines 489–561 of
`sandbox.py`): the agent config is built first (line 497); only when
that succeeds does the function reconnect to an existing sandbox
(line 503) or create a fresh one (line 559).  The returned event list
records which sandbox operations ran. -/
def run_agent_setup (request : QueryRequest) (cfg : SandstormConfig)
    (disk_skills : SkillMap) (sandbox_id : Option String) :
    List ProvisionEvent × Except String AgentConfig :=
  match build_agent_config request cfg disk_skills with
  | .error e => ([], .error e)
  | .ok (agent_config, _merged) =>
      match sandbox_id with
      | some sid => ([.sandboxReconnected sid], .ok agent_config)
      | none => ([.sandboxCreated], .ok agent_config)

/-! ### StreamBridge: the `_enqueue` callback and the consumer loop -/

/-- Constant `_QUEUE_MAXSIZE` from `sandbox.py`. -/
def QUEUE_MAXSIZE : Nat := 10000

/-- The JSON warning injected on first overflow
(`json.dumps({"type": "warning", "message": ...})`). -/
def warningMessage : String :=
  "\x7b\"type\": \"warning\", \"message\": \"Output buffer full, some messages may be dropped\"\x7d"

/-- The output queue together with the closed-over `_queue_full_warned`
flag and the telemetry drop counter (`record_queue_drop`).  Queue items
are `Option String`: `none` is the terminal sentinel `await queue.put(None)`. -/
structure BridgeState : Type where
  items : List (Option String)
  warned : Bool
  drops : Nat
deriving DecidableEq, Repr

/-- Python `asyncio.Queue.put_nowait` for a queue of capacity `cap > 0`:
appends when `qsize < maxsize`, otherwise raises `QueueFull`
(modelled as `none`). -/
def put_nowait (cap : Nat) (q : List (Option String)) (x : Option String) :
    Option (List (Option String)) :=
  if q.length < cap then some (q ++ [x]) else none

/-- Callback `_enqueue(data)` from `sandbox.py` (lines 464–487).  The callback is
synchronous: no consumer can run between its two `put_nowait` calls, so
the queue contents seen by the second call are exactly those left by
the first.  On `QueueFull`: count the drop; on the first overflow only,
set the warned flag and attempt to enqueue the structured warning,
suppressing a second `QueueFull`. -/
def enqueue (cap : Nat) (s : BridgeState) (data : String) : BridgeState :=
  match put_nowait cap s.items (some data) with
  | some q => { s with items := q }
  | none =>
      -- except asyncio.QueueFull: record_queue_drop()
      let s := { s with drops := s.drops + 1 }
      if s.warned then s
      else
        let s := { s with warned := true }
        -- with contextlib.suppress(asyncio.QueueFull): queue.put_nowait(warning)
        match put_nowait cap s.items (some warningMessage) with
        | some q => { s with items := q }
        | none => s

/-- Outcome of `sbx.commands.run(...)` inside `run_command`. -/
inductive CmdOutcome : Type where
  | succeeded
  | failed
  | raised
deriving DecidableEq, Repr

/-- The queue contents produced by the `run_command` background task
(lines 641–650 of `sandbox.py`): the lines its callbacks enqueued, then
the sentinel — the `finally:` block runs `await queue.put(None)`
whatever `outcome` the command had, so the sentinel is always appended. -/
def run_command_queue (emitted : List String) (_outcome : CmdOutcome) :
    List (Option String) :=
  (emitted.map some) ++ [none]

/-- Python `line.strip()`: drop whitespace from both ends (implemented
over the character list so it evaluates by kernel reduction). -/
def pyStrip (s : String) : String :=
  String.mk (((s.toList.dropWhile Char.isWhitespace).reverse.dropWhile
    Char.isWhitespace).reverse)

/-- The consumer loop of `run_agent_in_sandbox` (lines 663–670): pull
until the sentinel `none`, strip each line, skip lines that are blank
after stripping, yield the rest in queue order. -/
def consume_queue : List (Option String) → List String
  | [] => []
  | none :: _ => []  -- if line is None: break
  | some line :: rest =>
      let line := pyStrip line
      if line = "" then consume_queue rest else line :: consume_queue rest

/-! ### ExecutionPool: the Slack `handle_mention` reuse logic -/

/-- One `_sandbox_pool` entry: `(sandbox_id | None, lock)`.  The lock
object is identified by a token so that "the same lock is kept" is
expressible. -/
structure PoolEntry : Type where
  sid : Option String
  lockId : Nat
deriving DecidableEq, Repr

/-- Observable steps of one `handle_mention` interaction on its pool key. -/
inductive SlackEvent : Type where
  | lockAcquired (lockId : Nat)
  | readId (v : Option String)
  | execRun (sandbox_id : Option String) (errored : Bool)
  | envDestroyed
  | clearId
  | storeId (v : Option String)
deriving DecidableEq, Repr

/-- The events of one `_stream_to_slack` → `run_agent_in_sandbox` call:
the execution itself, then — from the `finally:` block of
`run_agent_in_sandbox` (lines 677–696) — `sbx.kill()` only when
`keep_alive` is false. -/
def stream_to_slack_events (keep_alive : Bool) (sandbox_id : Option String)
    (errored : Bool) : List SlackEvent :=
  [.execRun sandbox_id errored] ++ (if keep_alive then [] else [.envDestroyed])

/-- The `async with lock:` body of `handle_mention` (`slack.py` lines
455–516) acting on this key's pool entry.  `reuseErr` says whether the
reused run's metadata reported an error; `createErr` likewise for the
fresh run; `createdId` is what the create path pushed into
`sandbox_id_out` (none if provisioning failed before the id was
captured).  Both runs pass `keep_alive=True`.  On reuse error the entry
becomes `(None, lock)` (same lock, environment not destroyed) and the
interaction falls through to the create path, which pops and re-inserts
the entry as `(new_id, lock)`. -/
def handle_mention (e : PoolEntry) (reuseErr createErr : Bool)
    (createdId : Option String) : List SlackEvent × PoolEntry :=
  -- existing_sandbox_id is read only after the lock is acquired
  let trace : List SlackEvent := [.lockAcquired e.lockId, .readId e.sid]
  match e.sid with
  | some id =>
      let trace := trace ++ stream_to_slack_events true (some id) reuseErr
      if reuseErr then
        -- _sandbox_pool[key] = (None, lock)
        let cleared : PoolEntry := { sid := none, lockId := e.lockId }
        let trace := trace ++ [.clearId]
        -- fall through: create new sandbox and keep it alive
        let trace := trace ++ stream_to_slack_events true none createErr
        (trace ++ [.storeId createdId], { cleared with sid := createdId })
      else
        (trace, e)
  | none =>
      let trace := trace ++ stream_to_slack_events true none createErr
      (trace ++ [.storeId createdId], { e with sid := createdId })

/-! ### `QueryRequest.validate_file_paths` (`models.py` lines 128–144)

String primitives are implemented over `String.toList` so that every
definition evaluates by kernel reduction (the core `String.splitOn`,
`startsWith` and `dropWhile` use well-founded recursion and do not). -/

/-- Helper for `splitSlash`: accumulate the current component (reversed). -/
def splitSlashAux : List Char → List Char → List String
  | [], cur => [String.mk cur.reverse]
  | c :: rest, cur =>
      if c = '/' then String.mk cur.reverse :: splitSlashAux rest []
      else splitSlashAux rest (c :: cur)

/-- Python `path.split("/")`. -/
def splitSlash (s : String) : List String :=
  splitSlashAux s.toList []

/-- Python `s.startswith(pre)`. -/
def strStartsWith (s pre : String) : Bool :=
  pre.toList.isPrefixOf s.toList

/-- Python `"/".join(parts)`. -/
def joinSlash : List String → String
  | [] => ""
  | [s] => s
  | s :: rest => s ++ "/" ++ joinSlash rest

/-- CPython `posixpath.normpath`: collapse `//` and `.` components,
resolve `..` where possible, preserve exactly-two leading slashes. -/
def normpath (path : String) : String :=
  if path = "" then "."
  else
    let initial_slashes : Nat :=
      if strStartsWith path "/" then
        if strStartsWith path "//" && !strStartsWith path "///" then 2 else 1
      else 0
    let comps := splitSlash path
    let new_comps : List String := comps.foldl
      (fun acc comp =>
        if comp == "" || comp == "." then acc
        else if comp != ".." || (initial_slashes == 0 && acc.isEmpty)
            || (!acc.isEmpty && acc.getLast? == some "..") then
          acc ++ [comp]
        else if !acc.isEmpty then acc.dropLast
        else acc)
      []
    let joined := joinSlash new_comps
    let out := String.mk (List.replicate initial_slashes '/') ++ joined
    if out = "" then "." else out

/-- Python `str.lstrip("/")`. -/
def lstripSlashes (s : String) : String :=
  String.mk (s.toList.dropWhile (fun c => c == '/'))

/-- The normalized form a file key takes:
`normpath(path).lstrip("/")`. -/
def normKey (path : String) : String :=
  lstripSlashes (normpath path)

/-- Whether a normalized key is rejected:
`normalized.startswith("..") or normalized == "."`. -/
def badKey (normalized : String) : Bool :=
  strStartsWith normalized ".." || normalized == "."

/-- The `safe` dict construction loop of `validate_file_paths`:
normalize each key, raise on traversal, re-key by the normalized path. -/
def build_safe_files : List (String × String) → List (String × String) →
    Except String (List (String × String))
  | [], safe => .ok safe
  | (path, content) :: rest, safe =>
      let normalized := lstripSlashes (normpath path)
      if strStartsWith normalized ".." || normalized == "." then
        .error ("Path traversal not allowed: " ++ path)
      else build_safe_files rest (pyInsert safe normalized content)

/-- Validator `QueryRequest.validate_file_paths` (`models.py`): `None` passes
through; more than 20 entries or more than 10MB of UTF-8 content is a
`ValueError` (modelled as `Except.error`); otherwise each key is
normalized and checked, and the map is re-keyed by normalized paths. -/
def validate_file_paths (v : Option (List (String × String))) :
    Except String (Option (List (String × String))) :=
  match v with
  | none => .ok none
  | some files =>
      if files.length > 20 then
        .error "Too many files (max 20)"
      else
        let total_size := (files.map (fun pc => pc.2.utf8ByteSize)).sum
        if total_size > 10000000 then
          .error "Total file size exceeds 10MB limit"
        else
          (build_safe_files files []).map some

/-! ### Concrete evaluation inputs used by witnesses and counterexamples -/

/-- Request with one inline extra skill and an allow-list naming it. -/
def reqSkillsAllow : QueryRequest :=
  { prompt := "p"
    extra_skills := some [("helper", "helper instructions")]
    allowed_skills := some ["helper"] }

/-- One disk skill named `reviewer`. -/
def diskReviewer : SkillMap := [("reviewer", [("SKILL.md", "review things")])]

/-- Expected merged skill map for `reqSkillsAllow` over `diskReviewer`. -/
def msSkillsAllow : SkillMap := [("helper", [("SKILL.md", "helper instructions")])]

/-- Expected agent config for `reqSkillsAllow` against an empty base config. -/
def acSkillsAllow : AgentConfig :=
  { prompt := "p", cwd := "/home/user", model := none, max_turns := none
    system_prompt := none, output_format := none, agents := none
    mcp_servers := none, has_skills := true, allowed_tools := none }

/-- Bare request with no overrides. -/
def reqBare : QueryRequest := { prompt := "p" }

/-- Base config: tools `["Bash"]`, template skills baked in. -/
def cfgBashTools : SandstormConfig :=
  { allowed_tools := some ["Bash"], template_skills := some true }

/-- Expected agent config for `reqBare` against `cfgBashTools`. -/
def acBashTools : AgentConfig :=
  { prompt := "p", cwd := "/home/user", model := none, max_turns := none
    system_prompt := none, output_format := none, agents := none
    mcp_servers := none, has_skills := true, allowed_tools := some ["Bash", "Skill"] }

/-- Base config whose `allowed_tools` already holds two `"Skill"` entries
(`_validate_sandstorm_config` accepts any list of strings). -/
def cfgDupSkillTools : SandstormConfig :=
  { allowed_tools := some ["Skill", "Skill"], template_skills := some true }

/-- Expected agent config for `reqBare` against `cfgDupSkillTools`. -/
def acDupSkillTools : AgentConfig :=
  { prompt := "p", cwd := "/home/user", model := none, max_turns := none
    system_prompt := none, output_format := none, agents := none
    mcp_servers := none, has_skills := true, allowed_tools := some ["Skill", "Skill"] }

/-- Request whose empty allow-list empties the skill map even though an
extra skill was supplied. -/
def reqEmptyAllow : QueryRequest :=
  { prompt := "p"
    allowed_skills := some []
    extra_skills := some [("helper", "h")] }

/-- Base config with only `template_skills` set. -/
def cfgTemplateOnly : SandstormConfig := { template_skills := some true }

/-- Expected agent config for `reqEmptyAllow` against `cfgTemplateOnly`. -/
def acEmptyAllow : AgentConfig :=
  { prompt := "p", cwd := "/home/user", model := none, max_turns := none
    system_prompt := none, output_format := none, agents := none
    mcp_servers := none, has_skills := true, allowed_tools := none }

/-- A pool entry holding a live sandbox id. -/
def entryLive : PoolEntry := { sid := some "sb-old", lockId := 7 }

/-- Request performing a name-addressed agent operation. -/
def reqAgentAllow : QueryRequest := { prompt := "p", allowed_agents := some [] }

/-- Base config with the unaddressable list-form agents field. -/
def cfgListAgents : SandstormConfig := { agents := some (.list []) }

/-- A raw `sandstorm.json` exercising unknown, mistyped and
non-directory fields. -/
def rawMixed : List (String × JValue) :=
  [("model", JValue.str "sonnet"),
   ("mystery", JValue.null),
   ("max_turns", JValue.bool true),
   ("skills_dir", JValue.str "skills")]

/-- Filesystem for `rawMixed`: nothing is a directory. -/
def isDirNone : String → Bool := fun _ => false

/-- Request explicitly disabling the output format with `{}`. -/
def reqEmptyOutput : QueryRequest := { prompt := "p", output_format := some [] }

/-- Base config that defines an output format. -/
def cfgWithOutput : SandstormConfig :=
  { output_format := some [("type", JValue.str "json_schema")] }

/-- Expected agent config for `reqEmptyOutput` against `cfgWithOutput`. -/
def acEmptyOutput : AgentConfig :=
  { prompt := "p", cwd := "/home/user", model := none, max_turns := none
    system_prompt := none, output_format := none, agents := none
    mcp_servers := none, has_skills := false, allowed_tools := none }

/-- A file map whose key normalizes inside the working directory. -/
def filesUpDir : List (String × String) := [("src/../main.py", "x")]

/-- Expected re-keyed safe map for `filesUpDir`. -/
def safeUpDir : List (String × String) := [("main.py", "x")]

/-! ## Dictionary lemmas -/

theorem pyGet_pyInsert {α : Type} (m : List (String × α)) (k key : String) (v : α) :
    pyGet (pyInsert m k v) key = if key = k then some v else pyGet m key := by
  induction m with
  | nil =>
      by_cases h : key = k
      · simp [pyInsert, pyGet, h]
      · have h2 : ¬k = key := fun hh => h hh.symm
        simp [pyInsert, pyGet, h, h2]
  | cons p rest ih =>
      obtain ⟨pk, pv⟩ := p
      by_cases hpk : pk = k
      · subst hpk
        by_cases h : key = pk
        · subst h
          simp [pyInsert, pyGet]
        · have h2 : ¬pk = key := fun hh => h hh.symm
          simp [pyInsert, pyGet, h, h2]
      · by_cases h : pk = key
        · subst h
          have h2 : ¬pk = k := hpk
          simp [pyInsert, pyGet, hpk, fun hh : pk = k => hpk hh]
        · simp [pyInsert, pyGet, hpk, h, ih]

theorem pyGet_eq_none_of_not_mem_keys {α : Type} (m : List (String × α)) (key : String) :
    key ∉ m.map Prod.fst → pyGet m key = none := by
  induction m with
  | nil => intro _; rfl
  | cons p rest ih =>
      intro h
      simp only [List.map_cons, List.mem_cons] at h
      push_neg at h
      have hne : ¬p.1 = key := fun hh => h.1 hh.symm
      obtain ⟨pk, pv⟩ := p
      simpa [pyGet, hne] using ih h.2

theorem mem_of_pyGet_eq_some {α : Type} (m : List (String × α)) (key : String) (v : α) :
    pyGet m key = some v → (key, v) ∈ m := by
  induction m with
  | nil => intro h; simp [pyGet] at h
  | cons p rest ih =>
      intro h
      obtain ⟨pk, pv⟩ := p
      by_cases hk : pk = key
      · subst hk
        have h3 : pv = v := by simpa [pyGet] using h
        subst h3
        exact List.mem_cons_self _ _
      · rw [pyGet, if_neg hk] at h
        exact List.mem_cons_of_mem _ (ih h)

theorem pyGet_eq_some_of_mem {α : Type} (m : List (String × α)) (key : String) (v : α)
    (hnd : (pyKeys m).Nodup) : (key, v) ∈ m → pyGet m key = some v := by
  induction m with
  | nil => intro h; simp at h
  | cons p rest ih =>
      intro h
      obtain ⟨pk, pv⟩ := p
      simp only [pyKeys, List.map_cons, List.nodup_cons] at hnd
      rcases List.mem_cons.mp h with heq | hrest
      · have h1 : key = pk := congrArg Prod.fst heq
        have h2 : v = pv := congrArg Prod.snd heq
        subst h1; subst h2
        simp [pyGet]
      · have hne : pk ≠ key := by
          intro he
          exact hnd.1 (he ▸ (List.mem_map.mpr ⟨(key, v), hrest, rfl⟩))
        simpa [pyGet, hne] using ih hnd.2 hrest

theorem mem_pyInsert_elim {α : Type} (m : List (String × α)) (k : String) (v : α)
    (p : String × α) : p ∈ pyInsert m k v → p ∈ m ∨ p = (k, v) := by
  induction m with
  | nil => intro h; simpa [pyInsert] using h
  | cons q rest ih =>
      intro h
      obtain ⟨qk, qv⟩ := q
      by_cases hq : qk = k
      · subst hq
        simp only [pyInsert, if_true, eq_self_iff_true, if_pos rfl, List.mem_cons] at h
        rcases h with h | h
        · exact Or.inr (by simp [h])
        · exact Or.inl (List.mem_cons_of_mem _ h)
      · simp only [pyInsert, if_neg hq, List.mem_cons] at h
        rcases h with h | h
        · exact Or.inl (by simp [h])
        · rcases ih h with h2 | h2
          · exact Or.inl (List.mem_cons_of_mem _ h2)
          · exact Or.inr h2

theorem self_mem_pyInsert {α : Type} (m : List (String × α)) (k : String) (v : α) :
    (k, v) ∈ pyInsert m k v := by
  induction m with
  | nil => simp [pyInsert]
  | cons q rest ih =>
      obtain ⟨qk, qv⟩ := q
      by_cases hq : qk = k
      · subst hq
        simp [pyInsert]
      · simp only [pyInsert, if_neg hq]
        exact List.mem_cons_of_mem _ ih

theorem exists_mem_pyInsert_of_mem {α : Type} (m : List (String × α)) (k key : String)
    (v w : α) : (k, w) ∈ m → ∃ w2, (k, w2) ∈ pyInsert m key v := by
  induction m with
  | nil => intro h; simp at h
  | cons q rest ih =>
      intro h
      obtain ⟨qk, qv⟩ := q
      by_cases hq : qk = key
      · have he : pyInsert ((qk, qv) :: rest) key v = (qk, v) :: rest := by
          simp [pyInsert, hq]
        rw [he]
        rcases List.mem_cons.mp h with heq | hrest
        · have h1 : k = qk := congrArg Prod.fst heq
          subst h1
          exact ⟨v, List.mem_cons_self _ _⟩
        · exact ⟨w, List.mem_cons_of_mem _ hrest⟩
      · have he : pyInsert ((qk, qv) :: rest) key v = (qk, qv) :: pyInsert rest key v := by
          simp [pyInsert, hq]
        rw [he]
        rcases List.mem_cons.mp h with heq | hrest
        · exact ⟨w, List.mem_cons.mpr (Or.inl heq)⟩
        · obtain ⟨w2, hw2⟩ := ih hrest
          exact ⟨w2, List.mem_cons_of_mem _ hw2⟩

theorem pyKeys_pyInsert {α : Type} (m : List (String × α)) (k : String) (v : α) :
    pyKeys (pyInsert m k v) =
      if k ∈ pyKeys m then pyKeys m else pyKeys m ++ [k] := by
  induction m with
  | nil => simp [pyInsert, pyKeys]
  | cons q rest ih =>
      obtain ⟨qk, qv⟩ := q
      by_cases hq : qk = k
      · subst hq
        simp [pyInsert, pyKeys]
      · have hq2 : ¬k = qk := fun hh => hq hh.symm
        simp only [pyKeys, List.map_cons] at ih ⊢
        simp only [pyInsert, if_neg hq, List.map_cons]
        by_cases hmem : k ∈ rest.map Prod.fst
        · simp [hmem, hq2, ih]
        · simp [hmem, hq2, ih]

theorem nodup_pyKeys_pyInsert {α : Type} (m : List (String × α)) (k : String) (v : α)
    (h : (pyKeys m).Nodup) : (pyKeys (pyInsert m k v)).Nodup := by
  rw [pyKeys_pyInsert]
  by_cases hmem : k ∈ pyKeys m
  · simpa [hmem] using h
  · simpa [hmem, List.nodup_append] using h

theorem pyGet_filter_contains {α : Type} (m : List (String × α)) (allowed : List String)
    (key : String) :
    pyGet (m.filter (fun p => allowed.contains p.1)) key =
      if allowed.contains key then pyGet m key else none := by
  induction m with
  | nil => simp [pyGet]
  | cons p rest ih =>
      obtain ⟨pk, pv⟩ := p
      by_cases hm : pk ∈ allowed <;> by_cases hk : pk = key <;>
        simp_all [List.filter_cons, pyGet, List.contains, List.elem_iff]

theorem mem_pyErase {α : Type} (m : List (String × α)) (key : String) (p : String × α)
    (h : p ∈ pyErase m key) : p ∈ m ∧ p.1 ≠ key := by
  refine ⟨List.mem_of_mem_filter h, ?_⟩
  have := List.of_mem_filter h
  simpa using this

theorem pyGet_foldl_pyInsert {α β : Type} (f : String → β → α)
    (l : List (String × β)) (init : List (String × α)) (key : String)
    (hnd : (l.map Prod.fst).Nodup) :
    pyGet (l.foldl (fun m p => pyInsert m p.1 (f p.1 p.2)) init) key =
      match pyGet l key with
      | some c => some (f key c)
      | none => pyGet init key := by
  induction l generalizing init with
  | nil => simp [pyGet]
  | cons p rest ih =>
      obtain ⟨pk, pv⟩ := p
      simp only [List.map_cons, List.nodup_cons] at hnd
      simp only [List.foldl_cons]
      rw [ih _ hnd.2]
      by_cases hk : pk = key
      · subst hk
        have hnone : pyGet rest pk = none :=
          pyGet_eq_none_of_not_mem_keys rest pk hnd.1
        simp [pyGet, hnone, pyGet_pyInsert]
      · simp only [pyGet, if_neg hk]
        cases hr : pyGet rest key with
        | some c => simp
        | none =>
            have hk2 : ¬key = pk := fun hh => hk hh.symm
            simp [pyGet_pyInsert, hk2]

/-- Specialization of `pyGet_foldl_pyInsert` to the `SKILL.md` wrapping
performed by the `extra_skills` overlay loop. -/
theorem pyGet_skill_fold (l : List (String × String)) (init : SkillMap) (key : String)
    (hnd : (l.map Prod.fst).Nodup) :
    pyGet (l.foldl (fun m nc => pyInsert m nc.1 [("SKILL.md", nc.2)]) init) key =
      match pyGet l key with
      | some c => some [("SKILL.md", c)]
      | none => pyGet init key := by
  induction l generalizing init with
  | nil => simp [pyGet]
  | cons p rest ih =>
      obtain ⟨pk, pv⟩ := p
      simp only [List.map_cons, List.nodup_cons] at hnd
      simp only [List.foldl_cons]
      rw [ih _ hnd.2]
      by_cases hk : pk = key
      · subst hk
        have hnone : pyGet rest pk = none :=
          pyGet_eq_none_of_not_mem_keys rest pk hnd.1
        simp [pyGet, hnone, pyGet_pyInsert]
      · simp only [pyGet, if_neg hk]
        cases hr : pyGet rest key with
        | some c => simp
        | none =>
            have hk2 : ¬key = pk := fun hh => hk hh.symm
            simp [pyGet_pyInsert, hk2]

/-! ## `_build_agent_config` structure lemmas -/

/-- Reading the components of a successful `_build_agent_config` result
back as formulas over the inputs. -/
theorem build_agent_config_ok_parts (request : QueryRequest) (cfg : SandstormConfig)
    (disk_skills : SkillMap) (ac : AgentConfig) (ms : SkillMap)
    (hok : build_agent_config request cfg disk_skills = .ok (ac, ms)) :
    ms = mergedSkillsOf request disk_skills
    ∧ ac.has_skills = (!(mergedSkillsOf request disk_skills).isEmpty
        || cfg.template_skills.getD false)
    ∧ ac.allowed_tools =
        (match (if request.allowed_tools.isSome then request.allowed_tools
                else cfg.allowed_tools) with
         | some tools =>
             if ((!(mergedSkillsOf request disk_skills).isEmpty
                   || cfg.template_skills.getD false)
                 && !request.allowed_tools.isSome && !tools.contains "Skill") then
               some (tools ++ ["Skill"])
             else some tools
         | none => none)
    ∧ ac.output_format =
        (match (match request.output_format with
                | some d => some d
                | none => cfg.output_format) with
         | some d => if d.isEmpty then none else some d
         | none => none) := by
  simp only [build_agent_config] at hok
  split at hok
  · exact absurd hok (by simp)
  · simp only [Except.ok.injEq, Prod.mk.injEq] at hok
    obtain ⟨h1, h2⟩ := hok
    subst h2
    refine ⟨rfl, ?_, ?_, ?_⟩ <;> rw [← h1]

/-- The lone `raise` in `_build_agent_config` fires exactly when the
agents config has list form and the request uses `extra_agents`
(truthily) or a non-`None` `allowed_agents`. -/
theorem build_agent_config_error_iff (request : QueryRequest) (cfg : SandstormConfig)
    (disk_skills : SkillMap) :
    exOk (build_agent_config request cfg disk_skills) = false ↔
      ((∃ l, cfg.agents = some (.list l))
        ∧ (truthyDict request.extra_agents = true ∨ request.allowed_agents ≠ none)) := by
  cases h : cfg.agents with
  | none =>
      simp only [build_agent_config, h]
      split
    <;> simp_all [exOk, Option.isSome_iff_ne_none]
  | some a =>
      cases a with
      | map m =>
          simp only [build_agent_config, h]
          split
        <;> simp_all [exOk, Option.isSome_iff_ne_none]
      | list l =>
          simp only [build_agent_config, h]
          split
        <;> simp_all [exOk, Option.isSome_iff_ne_none]

/-! ## Claim theorems -/

/-- C1: for every request and base config, the resolved skill set equals
the disk-loaded skills overlaid with the request's extra skills (each
inline extra wrapped as a single `SKILL.md` file, extras replacing disk
skills of the same name), then — when `allowed_skills` is not `None` —
restricted to exactly the names in that list (`none` keeps all merged
skills, `[]` keeps none); the filter applies after the merge, so an
allow-listed extra skill with no disk counterpart survives. -/
theorem skills_merge_then_filter (request : QueryRequest) (cfg : SandstormConfig)
    (disk_skills : SkillMap) (ac : AgentConfig) (ms : SkillMap) (name : String)
    (hok : build_agent_config request cfg disk_skills = .ok (ac, ms))
    (hnd : ((request.extra_skills.getD []).map Prod.fst).Nodup) :
    pyGet ms name =
      if (match request.allowed_skills with
          | none => true
          | some allowed => allowed.contains name) = true then
        match pyGet (request.extra_skills.getD []) name with
        | some content => some [("SKILL.md", content)]
        | none => pyGet disk_skills name
      else none := by
  obtain ⟨hms, -, -, -⟩ := build_agent_config_ok_parts request cfg disk_skills ac ms hok
  subst hms
  unfold mergedSkillsOf
  cases hal : request.allowed_skills with
  | none =>
      rw [pyGet_skill_fold _ _ _ hnd]
      simp
  | some allowed =>
      rw [pyGet_filter_contains]
      by_cases hm : name ∈ allowed
      · have hc : allowed.contains name = true := List.elem_iff.mpr hm
        rw [if_pos hc, pyGet_skill_fold _ _ _ hnd]
        simp [hm]
      · have hc : ¬allowed.contains name = true := fun hcc => hm (List.elem_iff.mp hcc)
        simp [hm, hc]

/-- C1 witness: for the concrete request `reqSkillsAllow` (inline extra
skill `helper`, allow-list `["helper"]`) over disk skill `reviewer`, the
resolved map yields the wrapped extra for `helper`. -/
theorem skills_merge_then_filter_witness :
    pyGet msSkillsAllow "helper" = some [("SKILL.md", "helper instructions")] := by
  have h := skills_merge_then_filter reqSkillsAllow {} diskReviewer acSkillsAllow
    msSkillsAllow "helper" rfl (by decide)
  rw [h]
  rfl

/-- C5: the resolved `has_skills` flag is true iff the merged-and-filtered
skill map is non-empty or the base config's `template_skills` is set (in
particular, true when an allow-list empties the map but `template_skills`
is set, and false when the allow-list is empty, extras were supplied, and
`template_skills` is unset). -/
theorem has_skills_iff (request : QueryRequest) (cfg : SandstormConfig)
    (disk_skills : SkillMap) (ac : AgentConfig) (ms : SkillMap)
    (hok : build_agent_config request cfg disk_skills = .ok (ac, ms)) :
    ac.has_skills = true ↔ (ms ≠ [] ∨ cfg.template_skills = some true) := by
  obtain ⟨hms, hhs, -, -⟩ := build_agent_config_ok_parts request cfg disk_skills ac ms hok
  subst hms
  rw [hhs]
  cases htpl : cfg.template_skills with
  | none => simp [List.isEmpty_iff]
  | some b => cases b <;> simp [List.isEmpty_iff]

/-- C5 witness: with an empty allow-list, an extra skill supplied and
`template_skills` set, the map is empty yet `has_skills` is true. -/
theorem has_skills_iff_witness :
    acEmptyAllow.has_skills = true := by
  have h := has_skills_iff reqEmptyAllow cfgTemplateOnly diskReviewer acEmptyAllow [] rfl
  exact h.mpr (Or.inr rfl)

/-- C9: the resolved `output_format` takes the request's override whenever
one is supplied — an empty object is a "disable" signal distinct from
absent/`None`, so a request sending `{}` yields a disabled output format
even when the base config defines one — and otherwise falls back to the
base config's `output_format` (itself normalized by the same `or None`,
which maps an empty base object to `None` as well). -/
theorem output_format_override (request : QueryRequest) (cfg : SandstormConfig)
    (disk_skills : SkillMap) (ac : AgentConfig) (ms : SkillMap)
    (hok : build_agent_config request cfg disk_skills = .ok (ac, ms)) :
    (request.output_format = some [] → ac.output_format = none)
    ∧ (∀ d, d ≠ [] → request.output_format = some d → ac.output_format = some d)
    ∧ (request.output_format = none →
        ac.output_format =
          match cfg.output_format with
          | some d => if d.isEmpty then none else some d
          | none => none) := by
  obtain ⟨-, -, -, hof⟩ := build_agent_config_ok_parts request cfg disk_skills ac ms hok
  refine ⟨?_, ?_, ?_⟩
  · intro hreq
    rw [hof, hreq]
    rfl
  · intro d hd hreq
    rw [hof, hreq]
    simp [List.isEmpty_iff, hd]
  · intro hreq
    rw [hof, hreq]

/-- C9 witness: request `{}` disables the output format even though the
base config defines one. -/
theorem output_format_override_witness :
    acEmptyOutput.output_format = none := by
  have h := output_format_override reqEmptyOutput cfgWithOutput [] acEmptyOutput [] rfl
  exact h.1 rfl

/-- C4 counterexample: the claim's "contains exactly one Skill entry,
never duplicated" fails when the base list itself already holds two
`"Skill"` entries — the code sees `"Skill" in allowed_tools`, skips the
append, and passes the duplicated list through: the resolved
base-sourced list has skills enabled yet counts two `"Skill"` entries. -/
theorem allowed_tools_duplicate_skill_cex :
    build_agent_config reqBare cfgDupSkillTools [] = .ok (acDupSkillTools, [])
    ∧ acDupSkillTools.has_skills = true
    ∧ reqBare.allowed_tools = none
    ∧ acDupSkillTools.allowed_tools = some ["Skill", "Skill"]
    ∧ (["Skill", "Skill"].count "Skill") = 2 := by
  refine ⟨rfl, rfl, rfl, rfl, by decide⟩

/-- C4 (amended): an explicit request `allowed_tools` (including `[]`)
is passed through verbatim; otherwise the base list is used and
`"Skill"` is appended exactly once when the base list is non-null,
skills are enabled and `"Skill"` is absent — hence the resolved
base-sourced list with skills enabled contains exactly one `"Skill"`
entry whenever the base list itself contains at most one; a base list
already containing duplicate `"Skill"` entries is passed through with
its duplicates. -/
theorem allowed_tools_resolution (request : QueryRequest) (cfg : SandstormConfig)
    (disk_skills : SkillMap) (ac : AgentConfig) (ms : SkillMap)
    (hok : build_agent_config request cfg disk_skills = .ok (ac, ms)) :
    (∀ l, request.allowed_tools = some l → ac.allowed_tools = some l)
    ∧ (request.allowed_tools = none →
        ac.allowed_tools =
          match cfg.allowed_tools with
          | none => none
          | some tools =>
              if ac.has_skills && !tools.contains "Skill" then some (tools ++ ["Skill"])
              else some tools)
    ∧ (∀ tools, request.allowed_tools = none → cfg.allowed_tools = some tools →
        ac.has_skills = true → tools.count "Skill" ≤ 1 →
        ∃ res, ac.allowed_tools = some res ∧ res.count "Skill" = 1) := by
  obtain ⟨-, hhs, hat, -⟩ := build_agent_config_ok_parts request cfg disk_skills ac ms hok
  have hmain :
      (∀ l, request.allowed_tools = some l → ac.allowed_tools = some l)
      ∧ (request.allowed_tools = none →
          ac.allowed_tools =
            match cfg.allowed_tools with
            | none => none
            | some tools =>
                if ac.has_skills && !tools.contains "Skill" then some (tools ++ ["Skill"])
                else some tools) := by
    constructor
    · intro l hreq
      rw [hat, hreq]
      simp
    · intro hreq
      rw [hat, hreq]
      cases hcfg : cfg.allowed_tools with
      | none => rfl
      | some tools =>
          rw [hhs]
          simp
  refine ⟨hmain.1, hmain.2, ?_⟩
  intro tools hreq hcfg hskills hle
  have h2 := hmain.2 hreq
  rw [hcfg] at h2
  rw [hskills] at h2
  by_cases hmem : "Skill" ∈ tools
  · refine ⟨tools, ?_, ?_⟩
    · rw [h2]
      simp [hmem]
    · have hpos : 0 < tools.count "Skill" := List.count_pos_iff.mpr hmem
      omega
  · refine ⟨tools ++ ["Skill"], ?_, ?_⟩
    · rw [h2]
      simp [hmem]
    · rw [List.count_append, List.count_eq_zero.mpr hmem]
      rfl

/-- C4 witness: base list `["Bash"]` with skills enabled resolves to
`["Bash", "Skill"]`, which counts exactly one `"Skill"`. -/
theorem allowed_tools_resolution_witness :
    acBashTools.allowed_tools = some ["Bash", "Skill"]
    ∧ ∃ res, acBashTools.allowed_tools = some res ∧ res.count "Skill" = 1 := by
  have h := allowed_tools_resolution reqBare cfgBashTools [] acBashTools [] rfl
  refine ⟨?_, h.2.2 ["Bash"] rfl rfl rfl (by decide)⟩
  have h2 := h.2.1 rfl
  simpa using h2

/-- C7: for every request against a base config whose agents field has the
unaddressable list form, any use of `extra_agents` (truthy) or a
non-`None` `allowed_agents` makes the setup fail synchronously, before
any sandbox is created or reconnected (the provisioning event list is
empty); requests against a map-form or absent agents config never hit
this error. -/
theorem agents_list_form_error (request : QueryRequest) (cfg : SandstormConfig)
    (disk_skills : SkillMap) (sandbox_id : Option String) :
    (exOk (run_agent_setup request cfg disk_skills sandbox_id).2 = false ↔
      ((∃ l, cfg.agents = some (.list l))
        ∧ (truthyDict request.extra_agents = true ∨ request.allowed_agents ≠ none)))
    ∧ (exOk (run_agent_setup request cfg disk_skills sandbox_id).2 = false →
        (run_agent_setup request cfg disk_skills sandbox_id).1 = []) := by
  have hb := build_agent_config_error_iff request cfg disk_skills
  cases hres : build_agent_config request cfg disk_skills with
  | error e =>
      rw [hres] at hb
      simp only [exOk] at hb
      constructor
      · simp only [run_agent_setup, hres, exOk]
        simpa using hb
      · intro _
        simp [run_agent_setup, hres]
  | ok pair =>
      rw [hres] at hb
      simp only [exOk] at hb
      constructor
      · simp only [run_agent_setup, hres]
        cases sandbox_id <;> simpa [exOk] using hb
      · intro hfalse
        exfalso
        simp only [run_agent_setup, hres] at hfalse
        cases sandbox_id <;> simp [exOk] at hfalse

/-- C7 witness: list-form agents plus `allowed_agents=[]` fails the setup
with no provisioning event. -/
theorem agents_list_form_error_witness :
    (run_agent_setup reqAgentAllow cfgListAgents [] none).1 = [] := by
  exact (agents_list_form_error reqAgentAllow cfgListAgents [] none).2 rfl

/-- C2, evaluated at the failing input (capacity 1, queue already full,
warned flag clear): the enqueue drops the line, counts the drop and sets
the warned flag — but the structured warning is `put_nowait` into the
very queue that was just reported full, raises `QueueFull` and is
suppressed, so the queue is left unchanged and no warning message ever
reaches the consumer (the code's stated intent — and the claim — say the
consumer is notified). -/
theorem enqueue_first_overflow_drops_warning :
    enqueue 1 { items := [some "line0"], warned := false, drops := 0 } "line1" =
      { items := [some "line0"], warned := true, drops := 1 }
    ∧ some warningMessage ∉
        (enqueue 1 { items := [some "line0"], warned := false, drops := 0 } "line1").items := by
  refine ⟨rfl, ?_⟩
  intro h
  simp [enqueue, put_nowait, warningMessage] at h

/-- C3: the background task enqueues the terminal sentinel in its
`finally` block for every command outcome (success, failure, raise), so
the consumer loop — which pulls until the sentinel, strips each line and
discards blank ones — terminates for every execution and yields exactly
the stripped non-blank lines in queue order, ignoring anything past the
sentinel. -/
theorem sentinel_terminates_consumer (emitted : List String) (outcome : CmdOutcome)
    (trailing : List (Option String)) :
    consume_queue (run_command_queue emitted outcome ++ trailing) =
      (emitted.map pyStrip).filter (fun l => l != "") := by
  induction emitted with
  | nil => rfl
  | cons l rest ih =>
      simp only [run_command_queue, List.map_cons, List.cons_append] at ih ⊢
      by_cases h : pyStrip l = ""
      · simpa [consume_queue, h, List.filter_cons] using ih
      · simpa [consume_queue, h, List.filter_cons] using ih

/-- C6: each interaction reads the stored sandbox id only after acquiring
the per-key mutex (the trace always begins lock-then-read); when a reused
environment's execution reports an error, the entry's sandbox id is
cleared without destroying the environment (no destroy event; the same
lock is kept) and the same interaction falls through to create a fresh
environment, storing its id in the entry. -/
theorem pool_reuse_error_recovery (e : PoolEntry) (id : String) (createErr : Bool)
    (createdId : Option String) (hid : e.sid = some id) :
    (∀ (e2 : PoolEntry) (r c : Bool) (cid : Option String),
        (handle_mention e2 r c cid).1.take 2 =
          [.lockAcquired e2.lockId, .readId e2.sid])
    ∧ SlackEvent.envDestroyed ∉ (handle_mention e true createErr createdId).1
    ∧ SlackEvent.clearId ∈ (handle_mention e true createErr createdId).1
    ∧ SlackEvent.execRun none createErr ∈ (handle_mention e true createErr createdId).1
    ∧ SlackEvent.storeId createdId ∈ (handle_mention e true createErr createdId).1
    ∧ (handle_mention e true createErr createdId).2 =
        { sid := createdId, lockId := e.lockId } := by
  refine ⟨?_, ?_, ?_, ?_, ?_, ?_⟩
  · intro e2 r c cid
    unfold handle_mention
    cases h2 : e2.sid <;> cases r <;> simp [stream_to_slack_events]
  all_goals
    unfold handle_mention
    rw [hid]
    simp [stream_to_slack_events]

/-- C6 witness: a live entry (id `sb-old`, lock 7) whose reused run
errors ends the interaction holding the fresh id `sb-new` under the
same lock. -/
theorem pool_reuse_error_recovery_witness :
    (handle_mention entryLive true false (some "sb-new")).2 =
      { sid := some "sb-new", lockId := 7 } := by
  exact (pool_reuse_error_recovery entryLive "sb-old" false (some "sb-new") rfl).2.2.2.2.2

/-! ## `_validate_sandstorm_config` soundness (C8) -/

/-- Passing `fieldTypeOk "max_turns"` forces an integer: a boolean never passes
the integer-typed field. -/
theorem fieldTypeOk_max_turns (v : JValue) (h : fieldTypeOk "max_turns" v = true) :
    ∃ n, v = JValue.int n := by
  cases v with
  | int n => exact ⟨n, rfl⟩
  | str s =>
      rw [show fieldTypeOk "max_turns" (JValue.str s) = false from rfl] at h
      exact Bool.noConfusion h
  | bool b =>
      rw [show fieldTypeOk "max_turns" (JValue.bool b) = false from rfl] at h
      exact Bool.noConfusion h
  | float t =>
      rw [show fieldTypeOk "max_turns" (JValue.float t) = false from rfl] at h
      exact Bool.noConfusion h
  | dict fields =>
      rw [show fieldTypeOk "max_turns" (JValue.dict fields) = false from rfl] at h
      exact Bool.noConfusion h
  | arr elems =>
      rw [show fieldTypeOk "max_turns" (JValue.arr elems) = false from rfl] at h
      exact Bool.noConfusion h
  | null =>
      rw [show fieldTypeOk "max_turns" JValue.null = false from rfl] at h
      exact Bool.noConfusion h

/-- Passing `fieldTypeOk "skills_dir"` forces a string. -/
theorem fieldTypeOk_skills_dir (v : JValue) (h : fieldTypeOk "skills_dir" v = true) :
    ∃ s, v = JValue.str s := by
  cases v with
  | str s => exact ⟨s, rfl⟩
  | int n =>
      rw [show fieldTypeOk "skills_dir" (JValue.int n) = false from rfl] at h
      exact Bool.noConfusion h
  | bool b =>
      rw [show fieldTypeOk "skills_dir" (JValue.bool b) = false from rfl] at h
      exact Bool.noConfusion h
  | float t =>
      rw [show fieldTypeOk "skills_dir" (JValue.float t) = false from rfl] at h
      exact Bool.noConfusion h
  | dict fields =>
      rw [show fieldTypeOk "skills_dir" (JValue.dict fields) = false from rfl] at h
      exact Bool.noConfusion h
  | arr elems =>
      rw [show fieldTypeOk "skills_dir" (JValue.arr elems) = false from rfl] at h
      exact Bool.noConfusion h
  | null =>
      rw [show fieldTypeOk "skills_dir" JValue.null = false from rfl] at h
      exact Bool.noConfusion h

/-- Every pair the validation loop keeps is recognized and well-typed. -/
theorem validStep_foldl_mem (raw : List (String × JValue)) (acc : List (String × JValue))
    (hacc : ∀ kv ∈ acc, (known_fields kv.1).isSome = true ∧ fieldTypeOk kv.1 kv.2 = true) :
    ∀ kv ∈ raw.foldl validStep acc,
      (known_fields kv.1).isSome = true ∧ fieldTypeOk kv.1 kv.2 = true := by
  induction raw generalizing acc with
  | nil => exact hacc
  | cons p rest ih =>
      simp only [List.foldl_cons]
      apply ih
      intro kv hkv
      unfold validStep at hkv
      split at hkv
      next allowed hkf =>
        split at hkv
        next hb => exact hacc kv hkv
        next hb =>
          split at hkv
          next ht => exact hacc kv hkv
          next ht =>
            rcases mem_pyInsert_elim acc p.1 p.2 kv hkv with hm | he
            · exact hacc kv hm
            · subst he
              refine ⟨by simp [hkf], ?_⟩
              unfold fieldTypeOk
              rw [hkf]
              show ((!isBoolJ p.2 || allowed.contains JType.tBool)
                  && allowed.any fun t => typeMatches t p.2) = true
              have hb2 : (isBoolJ p.2 && !allowed.contains JType.tBool) = false := by
                revert hb
                cases isBoolJ p.2 && !allowed.contains JType.tBool <;> simp
              have ht2 : allowed.any (fun t => typeMatches t p.2) = true := by
                revert ht
                cases allowed.any (fun t => typeMatches t p.2) <;> simp
              rw [ht2]
              cases hibj : isBoolJ p.2
              · simp
              · rw [hibj] at hb2
                simp only [Bool.true_and] at hb2
                have hcb : allowed.contains JType.tBool = true := by
                  revert hb2
                  cases allowed.contains JType.tBool <;> simp
                have hmem2 : JType.tBool ∈ allowed := List.elem_iff.mp hcb
                simp [hmem2]
      next hkf => exact hacc kv hkv

/-- The validation loop keeps its keys duplicate-free. -/
theorem validStep_foldl_nodup (raw : List (String × JValue)) (acc : List (String × JValue))
    (hacc : (pyKeys acc).Nodup) : (pyKeys (raw.foldl validStep acc)).Nodup := by
  induction raw generalizing acc with
  | nil => exact hacc
  | cons p rest ih =>
      simp only [List.foldl_cons]
      apply ih
      unfold validStep
      split
      next allowed hkf =>
        split
        next hb => exact hacc
        next hb =>
          split
          next ht => exact hacc
          next ht => exact nodup_pyKeys_pyInsert _ _ _ hacc
      next hkf => exact hacc

/-- Membership survives the `skills_dir` existence post-check backwards. -/
theorem stage2_mem (isDir : String → Bool) (s1 : List (String × JValue))
    (p : String × JValue)
    (hp : p ∈ (match pyGet s1 "skills_dir" with
               | some (JValue.str s) =>
                   if isDir s then s1 else pyErase s1 "skills_dir"
               | some _ => s1
               | none => s1)) : p ∈ s1 := by
  split at hp
  · split at hp
    · exact hp
    · exact (mem_pyErase _ _ _ hp).1
  · exact hp
  · exact hp

/-- After the `skills_dir` post-check, a surviving `skills_dir` entry is a
string naming an existing directory. -/
theorem stage2_skills_dir (isDir : String → Bool) (s1 : List (String × JValue))
    (hnd : (pyKeys s1).Nodup)
    (hty : ∀ kv ∈ s1, (known_fields kv.1).isSome = true ∧ fieldTypeOk kv.1 kv.2 = true)
    (v : JValue)
    (hp : ("skills_dir", v) ∈ (match pyGet s1 "skills_dir" with
               | some (JValue.str s) =>
                   if isDir s then s1 else pyErase s1 "skills_dir"
               | some _ => s1
               | none => s1)) :
    ∃ s, v = JValue.str s ∧ isDir s = true := by
  split at hp
  next s hg =>
    split at hp
    next hdir =>
      have hv := pyGet_eq_some_of_mem s1 "skills_dir" v hnd hp
      rw [hg] at hv
      injection hv with hv
      exact ⟨s, hv.symm, hdir⟩
    next hdir => exact absurd rfl (mem_pyErase _ _ _ hp).2
  next jv hno hg =>
    obtain ⟨s, rfl⟩ := fieldTypeOk_skills_dir jv
      ((hty ("skills_dir", jv) (mem_of_pyGet_eq_some s1 "skills_dir" jv hg)).2)
    exact absurd rfl (hno s)
  next hg =>
    have hv := pyGet_eq_some_of_mem s1 "skills_dir" v hnd hp
    rw [hg] at hv
    exact Option.noConfusion hv

/-- Membership survives the `allowed_tools` all-strings post-check
backwards. -/
theorem stage3_mem (s2 : List (String × JValue)) (p : String × JValue)
    (hp : p ∈ (match pyGet s2 "allowed_tools" with
               | some (JValue.arr elems) =>
                   if !elems.all (fun e => match e with
                       | JValue.str _ => true | _ => false) then
                     pyErase s2 "allowed_tools"
                   else s2
               | some _ => s2
               | none => s2)) : p ∈ s2 := by
  split at hp
  · split at hp
    · exact (mem_pyErase _ _ _ hp).1
    · exact hp
  · exact hp
  · exact hp

/-- C8: configuration validation never raises (it is a total function);
every pair it returns has a recognized key and a value of the declared
type; a boolean never satisfies the integer-typed `max_turns` field; and
a kept `skills_dir` is a string resolving to an existing directory. -/
theorem config_validation_sound (isDir : String → Bool) (raw : List (String × JValue))
    (k : String) (v : JValue)
    (hmem : (k, v) ∈ validate_sandstorm_config isDir raw) :
    (known_fields k).isSome = true
    ∧ fieldTypeOk k v = true
    ∧ (k = "max_turns" → ∃ n, v = JValue.int n)
    ∧ (k = "skills_dir" → ∃ s, v = JValue.str s ∧ isDir s = true) := by
  have hnd1 : (pyKeys (raw.foldl validStep [])).Nodup :=
    validStep_foldl_nodup raw [] (by simp [pyKeys])
  have hP1 : ∀ kv ∈ raw.foldl validStep [],
      (known_fields kv.1).isSome = true ∧ fieldTypeOk kv.1 kv.2 = true :=
    validStep_foldl_mem raw [] (by intro kv h; simp at h)
  simp only [validate_sandstorm_config] at hmem
  have hm2 := stage3_mem _ _ hmem
  have hm1 := stage2_mem isDir _ _ hm2
  have hP := hP1 (k, v) hm1
  refine ⟨hP.1, hP.2, ?_, ?_⟩
  · intro hk
    exact fieldTypeOk_max_turns v (by rw [← hk] at *; exact hP.2)
  · intro hk
    subst hk
    exact stage2_skills_dir isDir _ hnd1 hP1 v hm2

/-- C8 witness: in `rawMixed`, the unknown key, the boolean `max_turns`
and the non-directory `skills_dir` are all dropped; the surviving
`model` entry is recognized and well-typed. -/
theorem config_validation_sound_witness :
    (known_fields "model").isSome = true
    ∧ fieldTypeOk "model" (JValue.str "sonnet") = true := by
  have h := config_validation_sound isDirNone rawMixed "model" (JValue.str "sonnet")
    (by rw [show validate_sandstorm_config isDirNone rawMixed =
          [("model", JValue.str "sonnet")] from rfl]
        exact List.mem_singleton.mpr rfl)
  exact ⟨h.1, h.2.1⟩

/-! ## `validate_file_paths` soundness (C10) -/

/-- If any key normalizes to a rejected path, the `safe` loop raises. -/
theorem build_safe_files_error_of_bad (files : List (String × String))
    (pc : String × String) (hmem : pc ∈ files)
    (hbad : badKey (lstripSlashes (normpath pc.1)) = true) :
    ∀ safe, ∃ e, build_safe_files files safe = .error e := by
  induction files with
  | nil => simp at hmem
  | cons q rest ih =>
      intro safe
      obtain ⟨qp, qc⟩ := q
      by_cases hq : (strStartsWith (lstripSlashes (normpath qp)) ".."
          || lstripSlashes (normpath qp) == ".") = true
      · refine ⟨"Path traversal not allowed: " ++ qp, ?_⟩
        simp only [build_safe_files]
        rw [if_pos hq]
      · rcases List.mem_cons.mp hmem with heq | hrest
        · exfalso
          subst heq
          exact hq (by unfold badKey at hbad; exact hbad)
        · obtain ⟨e, he⟩ :=
            ih hrest (pyInsert safe (lstripSlashes (normpath qp)) qc)
          refine ⟨e, ?_⟩
          simp only [build_safe_files]
          rw [if_neg hq]
          exact he

/-- Properties of a successful `safe` loop: no rejected key, and the
output is the input re-keyed by normalized paths (every output pair
comes from an input pair, every input key appears normalized, and every
already-present key survives). -/
theorem build_safe_files_ok_props (files : List (String × String))
    (safe out : List (String × String))
    (hok : build_safe_files files safe = .ok out) :
    (∀ pc ∈ files, badKey (lstripSlashes (normpath pc.1)) = false)
    ∧ (∀ kv ∈ out, kv ∈ safe ∨ ∃ pc ∈ files,
        kv.1 = lstripSlashes (normpath pc.1) ∧ kv.2 = pc.2)
    ∧ (∀ pc ∈ files, ∃ c, (lstripSlashes (normpath pc.1), c) ∈ out)
    ∧ (∀ k c, (k, c) ∈ safe → ∃ c2, (k, c2) ∈ out) := by
  induction files generalizing safe with
  | nil =>
      simp only [build_safe_files] at hok
      injection hok with hok
      subst hok
      exact ⟨by simp, fun kv h => Or.inl h, by simp, fun k c h => ⟨c, h⟩⟩
  | cons q rest ih =>
      obtain ⟨qp, qc⟩ := q
      simp only [build_safe_files] at hok
      by_cases hq : (strStartsWith (lstripSlashes (normpath qp)) ".."
          || lstripSlashes (normpath qp) == ".") = true
      · rw [if_pos hq] at hok
        exact Except.noConfusion hok
      · rw [if_neg hq] at hok
        obtain ⟨h1, h2, h3, h4⟩ := ih _ hok
        refine ⟨?_, ?_, ?_, ?_⟩
        · intro pc hpc
          rcases List.mem_cons.mp hpc with heq | hrest
          · subst heq
            show badKey (lstripSlashes (normpath qp)) = false
            unfold badKey
            revert hq
            cases strStartsWith (lstripSlashes (normpath qp)) ".."
                || lstripSlashes (normpath qp) == "." <;> simp
          · exact h1 pc hrest
        · intro kv hkv
          rcases h2 kv hkv with hs | hex
          · rcases mem_pyInsert_elim safe _ _ kv hs with hs2 | he
            · exact Or.inl hs2
            · subst he
              exact Or.inr ⟨(qp, qc), List.mem_cons_self _ _, rfl, rfl⟩
          · obtain ⟨pc, hpc, hh⟩ := hex
            exact Or.inr ⟨pc, List.mem_cons_of_mem _ hpc, hh⟩
        · intro pc hpc
          rcases List.mem_cons.mp hpc with heq | hrest
          · subst heq
            exact h4 _ qc (self_mem_pyInsert _ _ _)
          · exact h3 pc hrest
        · intro k c hkc
          obtain ⟨c2, hc2⟩ :=
            exists_mem_pyInsert_of_mem safe k (lstripSlashes (normpath qp)) qc c hkc
          exact h4 k c2 hc2

/-- C10: a files map is accepted only when it has at most 20 entries and
at most 10,000,000 UTF-8 bytes of content and no key whose normalized
form (normpath, leading slashes stripped) starts with `..` or equals
`.`; any such key makes validation raise before provisioning; an
accepted map is exactly the input re-keyed by normalized paths. -/
theorem file_paths_validation (files : List (String × String)) :
    (∀ safe, validate_file_paths (some files) = .ok (some safe) →
        files.length ≤ 20
        ∧ (files.map (fun pc => pc.2.utf8ByteSize)).sum ≤ 10000000
        ∧ (∀ pc ∈ files, badKey (lstripSlashes (normpath pc.1)) = false)
        ∧ (∀ kv ∈ safe, ∃ pc ∈ files,
            kv.1 = lstripSlashes (normpath pc.1) ∧ kv.2 = pc.2)
        ∧ (∀ pc ∈ files, ∃ c, (lstripSlashes (normpath pc.1), c) ∈ safe))
    ∧ ((∃ pc ∈ files, badKey (lstripSlashes (normpath pc.1)) = true) →
        ∃ e, validate_file_paths (some files) = .error e) := by
  constructor
  · intro safe hok
    simp only [validate_file_paths] at hok
    by_cases h20 : files.length > 20
    · rw [if_pos h20] at hok
      exact Except.noConfusion hok
    · rw [if_neg h20] at hok
      by_cases hsz : (files.map (fun pc => pc.2.utf8ByteSize)).sum > 10000000
      · rw [if_pos hsz] at hok
        exact Except.noConfusion hok
      · rw [if_neg hsz] at hok
        cases hbs : build_safe_files files [] with
        | error e =>
            rw [hbs] at hok
            exact Except.noConfusion hok
        | ok out =>
            rw [hbs] at hok
            simp only [Except.map] at hok
            injection hok with hok
            injection hok with hok
            subst hok
            obtain ⟨h1, h2, h3, h4⟩ := build_safe_files_ok_props files [] out hbs
            refine ⟨by omega, by omega, h1, ?_, h3⟩
            intro kv hkv
            rcases h2 kv hkv with hs | hex
            · simp at hs
            · exact hex
  · rintro ⟨pc, hpc, hbad⟩
    simp only [validate_file_paths]
    by_cases h20 : files.length > 20
    · refine ⟨"Too many files (max 20)", ?_⟩
      rw [if_pos h20]
    · by_cases hsz : (files.map (fun pc => pc.2.utf8ByteSize)).sum > 10000000
      · refine ⟨"Total file size exceeds 10MB limit", ?_⟩
        rw [if_neg h20, if_pos hsz]
      · obtain ⟨e, he⟩ := build_safe_files_error_of_bad files pc hpc hbad []
        refine ⟨e, ?_⟩
        rw [if_neg h20, if_neg hsz, he]
        rfl

/-- C10 witness: the single-file map keyed `src/../main.py` is accepted
and re-keyed to `main.py`. -/
theorem file_paths_validation_witness :
    filesUpDir.length ≤ 20
    ∧ ∃ c, (lstripSlashes (normpath "src/../main.py"), c) ∈ safeUpDir := by
  have h := (file_paths_validation filesUpDir).1 safeUpDir rfl
  exact ⟨h.1, h.2.2.2.2 ("src/../main.py", "x") (by simp [filesUpDir])⟩

end Sandstorm
